import Mathlib

set_option linter.unusedTactic false
set_option linter.unreachableTactic false
set_option maxRecDepth 100000

/-!
Verification development for the sol-grid repository: a dense 3D voxel
grid over a flat byte buffer (src/lib.rs) and a MagicaVoxel .vox encoder
(src/vox.rs).  Machine integers are modelled as `Nat` with explicit
`% 2^w` at the operations where the Rust code computes in `u8`/`u32`,
and as checked arithmetic (`Option Nat` against `USIZE_MAX`) where the
code uses `checked_mul` on `usize` (64-bit platform).  Rust panics are
modelled as `none`.  Release-mode (wrapping) overflow semantics are used
for the unchecked integer operations.
-/

namespace SolGrid

/-- 2^32, the modulus of Rust's `u32` arithmetic. -/
def M32 : Nat := 4294967296

/-- 2^64 - 1, `usize::MAX` on the 64-bit target. -/
def USIZE_MAX : Nat := 18446744073709551615

/-- `usize::checked_mul`: `some (a*b)` unless the product overflows. -/
def checkedMul (a b : Nat) : Option Nat :=
  if a * b ≤ USIZE_MAX then some (a * b) else none

/-- `Grid::len` (src/lib.rs:100-105): `Some(SIZE).and_then(checked_mul width)
.and_then(checked_mul depth).and_then(checked_mul height)`. -/
def gridLen (size width depth height : Nat) : Option Nat :=
  ((((some size).bind (fun s => checkedMul s width)).bind
      (fun s => checkedMul s depth)).bind
      (fun s => checkedMul s height))

/-- The `u32` expression `x + (y * width) + (z * width * depth)` of
`Grid::indices_unchecked` (src/lib.rs:151).  Every `+`/`*` there wraps
modulo 2^32; a single outer `% 2^32` is equivalent. -/
def unsizedIndex (width depth x y z : Nat) : Nat :=
  (x + y * width + z * width * depth) % M32

/-- `Grid::indices_unchecked` (src/lib.rs:150-154): the byte range
`min_index .. min_index + SIZE` with `min_index = unsized_index as usize * SIZE`
(the `usize` product cannot wrap: both factors are small). -/
def indicesUnchecked (size width depth x y z : Nat) : Nat × Nat :=
  (unsizedIndex width depth x y z * size,
   unsizedIndex width depth x y z * size + size)

/-- `Voxel::SIZE` (src/lib.rs:29). -/
def voxelSIZE : Nat := 8

/-- `<Voxel as Codec>::from_slice` (src/lib.rs:36-39): asserts the slice
length is exactly 8 and reinterprets the bytes as a `Voxel`.  The
assertion failure (a panic) is modelled as `none`. -/
def Voxel.from_slice (s : List Nat) : Option (List Nat) :=
  if s.length = voxelSIZE then some s else none

/-- `Voxel::from_rgba` (src/lib.rs:19-21): concatenates the input with
four zero bytes and reinterprets the whole concatenation via
`from_slice`. -/
def Voxel.from_rgba (rgba : List Nat) : Option (List Nat) :=
  Voxel.from_slice (rgba ++ List.replicate 4 0)

/-- The `Rotation` enum (src/lib.rs:66-72). -/
inductive Rotation where
  | R0 | R90 | R180 | R270
deriving DecidableEq

/-- The rotation matrix `r` of `Grid::rotated_z` (src/lib.rs:196-201),
three rows of three `i64` entries. -/
def rotMatrix : Rotation → (Int × Int × Int) × (Int × Int × Int) × (Int × Int × Int)
  | .R0 => ((1, 0, 0), (0, 1, 0), (0, 0, 1))
  | .R90 => ((0, -1, 0), (1, 0, 0), (0, 0, 1))
  | .R180 => ((-1, 0, 0), (0, -1, 0), (0, 0, 1))
  | .R270 => ((0, 1, 0), (-1, 0, 0), (0, 0, 1))

/-- `x_even_correction` (src/lib.rs:205-208). -/
def xEvenCorrection (rot : Rotation) (width depth : Nat) : Int :=
  match rot with
  | .R90 | .R180 => if width % 2 = 0 then 1 else 0
  | _ => if width < depth then 1 else 0

/-- `y_even_correction` (src/lib.rs:209-212). -/
def yEvenCorrection (rot : Rotation) (depth : Nat) : Int :=
  match rot with
  | .R180 | .R270 => if depth % 2 = 0 then 1 else 0
  | _ => 0

/-- The destination coordinate `(rx, ry, rz)` computed by the body of the
`rotated_z` loop (src/lib.rs:213-219) for a source cell `(gx, gy, gz)`.
All arithmetic there is `i64`; the operands are small enough that `i64`
never wraps, so plain `Int` is faithful. -/
def rotDest (rot : Rotation) (width depth height : Nat) (gx gy gz : Nat) :
    Int × Int × Int :=
  let m := rotMatrix rot
  let xo : Int := (width : Int) / 2
  let yo : Int := (depth : Int) / 2
  let zo : Int := (height : Int) / 2
  let x : Int := (gx : Int) - xo
  let y : Int := (gy : Int) - yo
  let z : Int := (gz : Int) - zo
  (m.1.1 * x + m.1.2.1 * y + m.1.2.2 * z + xo - xEvenCorrection rot width depth,
   m.2.1.1 * x + m.2.1.2.1 * y + m.2.1.2.2 * z + yo - yEvenCorrection rot depth,
   m.2.2.1 * x + m.2.2.2.1 * y + m.2.2.2.2 * z + zo)

/-- The grid (src/lib.rs:74-80), modelled at cell granularity: the
`Vec<u8>` buffer holds `width * depth * height` chunks of `SIZE(T)` bytes
and every access is chunk-aligned, so `data` lists the decoded cells in
buffer order.  The byte-level length/offset arithmetic is modelled
separately by `gridLen` and `indicesUnchecked`. -/
structure Grid (T : Type) where
  width : Nat
  depth : Nat
  height : Nat
  data : List T

/-- `Grid::new` at cell granularity (src/lib.rs:85-98): a zero-filled
buffer of `width * depth * height` cells, each decoding to the
all-zeroes cell `t0`.  The `usize` overflow check of the byte-level
`Grid::len` is modelled by `gridLen`. -/
def Grid.mkNew (t0 : T) (width depth height : Nat) : Grid T :=
  { width := width, depth := depth, height := height,
    data := List.replicate (width * depth * height) t0 }

/-- `Grid::cell_count` (src/lib.rs:185-187). -/
def Grid.cell_count (g : Grid T) : Nat :=
  g.width * g.depth * g.height

/-- `Grid::get` (src/lib.rs:119-128) at cell granularity: bounds-check
each coordinate (out of range panics, modelled as `none`), then read the
chunk at the `u32` index computed by `indices_unchecked`. -/
def Grid.get (g : Grid T) (x y z : Nat) : Option T :=
  if x < g.width ∧ y < g.depth ∧ z < g.height then
    g.data.get? (unsizedIndex g.width g.depth x y z)
  else none

/-- The write `*grid.get_mut(x, y, z) = t` (src/lib.rs:130-139) at cell
granularity: bounds-check (panic modelled as `none`), then overwrite the
chunk at the `u32` index computed by `indices_unchecked`. -/
def Grid.setCell (g : Grid T) (x y z : Nat) (t : T) : Option (Grid T) :=
  if x < g.width ∧ y < g.depth ∧ z < g.height then
    some { g with data := g.data.set (unsizedIndex g.width g.depth x y z) t }
  else none

/-- One call of `EnumerateCells::next` / `EnumerateCellsMut::next`
(src/lib.rs:243-255 and 276-288, which have identical bodies): from the
counter state `(x, y, z)`, first wrap `x` into `y`, then `y` into `z`,
yield the adjusted triple, and advance `x`.  Returns
(yielded coordinate, next counter state). -/
def ecStep (width depth : Nat) (s : Nat × Nat × Nat) :
    (Nat × Nat × Nat) × (Nat × Nat × Nat) :=
  -- next() first wraps x into y (x := 0, y += 1 when width ≤ x), then
  -- wraps the adjusted y into z (y := 0, z += 1 when depth ≤ y), yields
  -- the adjusted triple and advances x.  The two sequential wrap checks
  -- are written here as a four-way decision tree on the same conditions.
  if width ≤ s.1 then
    if depth ≤ s.2.1 + 1 then ((0, 0, s.2.2 + 1), (1, 0, s.2.2 + 1))
    else ((0, s.2.1 + 1, s.2.2), (1, s.2.1 + 1, s.2.2))
  else
    if depth ≤ s.2.1 then ((s.1, 0, s.2.2 + 1), (s.1 + 1, 0, s.2.2 + 1))
    else ((s.1, s.2.1, s.2.2), (s.1 + 1, s.2.1, s.2.2))

/-- The counter state before the `n`-th `next` call (counters start at
`(0, 0, 0)`, src/lib.rs:156-168). -/
def ecState (width depth : Nat) : Nat → Nat × Nat × Nat
  | 0 => (0, 0, 0)
  | n + 1 => (ecStep width depth (ecState width depth n)).2

/-- The coordinate triple yielded by the `n`-th `next` call (0-indexed). -/
def ecYield (width depth : Nat) (n : Nat) : Nat × Nat × Nat :=
  (ecStep width depth (ecState width depth n)).1

/-- `Grid::enumerate_cells` / `enumerate_cells_mut` as the list of
(coordinate, cell) pairs produced until `chunks_exact` is exhausted:
the iterator yields exactly one tuple per `SIZE(T)`-byte chunk of the
buffer, i.e. one per entry of `data`. -/
def Grid.enumCellsList (g : Grid T) : List ((Nat × Nat × Nat) × T) :=
  g.data.enum.map (fun nt => (ecYield g.width g.depth nt.1, nt.2))

/-- The body of the `rotated_z` loop (src/lib.rs:213-221): compute the
destination coordinate via `rotDest`, cast each `i64` component to `u32`
(truncation modulo 2^32), and write the source cell there through
`get_mut` (out-of-bounds panic modelled as `none`). -/
def rotWrite (rot : Rotation) (width depth height : Nat) (out : Grid T)
    (cell : (Nat × Nat × Nat) × T) : Option (Grid T) :=
  let d := rotDest rot width depth height cell.1.1 cell.1.2.1 cell.1.2.2
  out.setCell (d.1 % (4294967296 : Int)).toNat (d.2.1 % (4294967296 : Int)).toNat
    (d.2.2 % (4294967296 : Int)).toNat cell.2

/-- `Grid::rotated_z` (src/lib.rs:189-223): assert the grid is a cube
(panic modelled as `none`), allocate a fresh zero-filled grid of the same
extents, and copy every enumerated source cell to its rotated destination
coordinate. -/
def Grid.rotated_z (t0 : T) (g : Grid T) (rot : Rotation) : Option (Grid T) :=
  if g.width = g.depth ∧ g.width = g.height then
    g.enumCellsList.foldlM (rotWrite rot g.width g.depth g.height)
      (Grid.mkNew t0 g.width g.depth g.height)
  else none

/-- `Grid::new` at byte level (src/lib.rs:85-98): `None` from the checked
length computation is a panic (modelled as `none`), otherwise the buffer
is `vec![0; len]`. -/
def gridNewBytes (size width depth height : Nat) : Option (List Nat) :=
  (gridLen size width depth height).map (fun len => List.replicate len 0)

/-- The counterexample grid for claim C4: a 2048-cube of `u32` cells
(2^33 cells, buffer 2^35 bytes, constructible on the 64-bit target) whose
cell at linear index 2^32 - coordinate (0, 0, 1024) - holds 5 and all
other cells hold 0. -/
def bigCubeData : List Nat :=
  List.replicate 4294967296 0 ++ 5 :: List.replicate 4294967295 0

/-- The counterexample grid for claim C4 (extents 2048 x 2048 x 2048). -/
def bigCube : Grid Nat :=
  { width := 2048, depth := 2048, height := 2048, data := bigCubeData }

/-- `Voxel::as_rgba` (src/lib.rs:23-25): the first 4 bytes of the cell.
For the encoder a `Grid<Voxel>` cell is its 8-byte chunk, a `List Nat`. -/
def asRgba (v : List Nat) : List Nat := v.take 4

/-- The running state of the cell loop in `vox::encode`
(src/vox.rs:8-10): the color-to-index `HashMap` (modelled as an
insertion-ordered association list, keys compared by the 4 rgba bytes;
insertion order is immaterial to the final palette because every stored
index is distinct), the `u8` index counter, and the emitted 4-byte
records. -/
structure VoxLoopState where
  colorIndices : List (List Nat × Nat)
  index : Nat
  xyzis : List (List Nat)

/-- `HashMap::get` on the association list model. -/
def lookupColor (assoc : List (List Nat × Nat)) (rgba : List Nat) : Option Nat :=
  match assoc with
  | [] => none
  | p :: rest => if p.1 = rgba then some p.2 else lookupColor rest rgba

/-- One iteration of the cell loop of `encode` (src/vox.rs:11-30): record
the cell coordinate truncated to `u8`; on a fresh color, insert it under
the current `u8` index and advance the index (wrapping); emit the record
exactly when the alpha byte is non-zero. -/
def voxCellStep (st : VoxLoopState) (cell : (Nat × Nat × Nat) × List Nat) :
    VoxLoopState :=
  let x := cell.1.1 % 256
  let y := cell.1.2.1 % 256
  let z := cell.1.2.2 % 256
  let rgba := asRgba cell.2
  match lookupColor st.colorIndices rgba with
  | none =>
      { colorIndices := st.colorIndices ++ [(rgba, st.index)],
        index := (st.index + 1) % 256,
        xyzis := if 0 < rgba.getD 3 0 then st.xyzis ++ [[x, y, z, st.index]]
          else st.xyzis }
  | some i =>
      { st with
        xyzis := if 0 < rgba.getD 3 0 then st.xyzis ++ [[x, y, z, i]]
          else st.xyzis }

/-- The whole cell loop of `encode`, starting from the empty map and
index 1. -/
def voxLoop (cells : List ((Nat × Nat × Nat) × List Nat)) : VoxLoopState :=
  cells.foldl voxCellStep { colorIndices := [], index := 1, xyzis := [] }

/-- `u32::to_le_bytes`. -/
def le32 (n : Nat) : List Nat :=
  [n % 256, n / 256 % 256, n / 65536 % 256, n / 16777216 % 256]

/-- The palette array build of `encode` (src/vox.rs:73-76): a 256-entry
array of zeroed 4-byte colors, overwritten at `i - 1` for every map entry
`(rgba, i)`.  The `i = 0` entry makes the Rust indexing panic
(`0usize - 1` wraps to an out-of-bounds index); `encode` checks for it
and yields `none` in that case. -/
def buildPalette (assoc : List (List Nat × Nat)) : List (List Nat) :=
  assoc.foldl (fun pal p => pal.set (p.2 - 1) p.1) (List.replicate 256 [0, 0, 0, 0])

/-- `vox::encode` (src/vox.rs:6-79).  All size fields are `u32`
arithmetic (wrapping, hence the `% M32`); the byte stream is the exact
write sequence of the source.  `none` models the palette-index panic. -/
def encode (g : Grid (List Nat)) : Option (List Nat) :=
  let st := voxLoop g.enumCellsList
  let voxelCount := st.xyzis.length % M32
  let xyziChunkSize := (4 + voxelCount * 4) % M32
  let mainChildSize := (36 + 12 + xyziChunkSize + 1024) % M32
  if st.colorIndices.any (fun p => p.2 = 0) then none
  else some (
    [86, 79, 88, 32] ++ le32 150 ++
    [77, 65, 73, 78] ++ le32 0 ++ le32 mainChildSize ++
    [83, 73, 90, 69] ++ le32 12 ++ le32 0 ++
    le32 g.width ++ le32 g.depth ++ le32 g.height ++
    [88, 89, 90, 73] ++ le32 xyziChunkSize ++ le32 0 ++ le32 voxelCount ++
    st.xyzis.join ++
    [82, 71, 66, 65] ++ le32 1024 ++ le32 0 ++
    (buildPalette st.colorIndices).join)

/-- Spec-side registry: the distinct colors in first-occurrence order
(the spec's insertion-ordered color table with 1-based indices). -/
def firstSeen (colors : List (List Nat)) : List (List Nat) :=
  colors.foldl (fun acc c => if c ∈ acc then acc else acc ++ [c]) []

/-- 0-based position of a color in the registry. -/
def posOf (c : List Nat) : List (List Nat) → Nat
  | [] => 0
  | a :: rest => if a = c then 0 else posOf c rest + 1

/-- The cell colors of a grid in enumeration order. -/
def gridColors (g : Grid (List Nat)) : List (List Nat) :=
  g.enumCellsList.map (fun c => asRgba c.2)

/-- The cells with non-zero alpha, in enumeration order. -/
def opaqueCells (g : Grid (List Nat)) : List ((Nat × Nat × Nat) × List Nat) :=
  g.enumCellsList.filter (fun c => 0 < (asRgba c.2).getD 3 0)

/-- The number of emitted voxel records. -/
def voxelN (g : Grid (List Nat)) : Nat := (opaqueCells g).length

/-- Record list over a fixed registry: one `(x, y, z, index)` record,
components truncated to `u8`, per non-zero-alpha cell in order, the index
being the 1-based registry position of the cell's color. -/
def recordsOf (cells : List ((Nat × Nat × Nat) × List Nat))
    (registry : List (List Nat)) : List (List Nat) :=
  (cells.filter (fun c => 0 < (asRgba c.2).getD 3 0)).map (fun c =>
    [c.1.1 % 256, c.1.2.1 % 256, c.1.2.2 % 256,
      posOf (asRgba c.2) registry + 1])

/-- Modelled from the spec (claim C6 sentence): the emitted records. -/
def specRecords (g : Grid (List Nat)) : List (List Nat) :=
  recordsOf g.enumCellsList (firstSeen (gridColors g))

/-- Modelled from the spec (claim C5 sentence): 256 four-byte entries,
entry `i` holding the color registered under palette index `i + 1`, or
four zero bytes if that index was never assigned. -/
def specPalette (g : Grid (List Nat)) : List (List Nat) :=
  (List.range 256).map (fun i => (firstSeen (gridColors g)).getD i [0, 0, 0, 0])

/-- Modelled from the spec (claim C5): the byte-exact external layout
against which `encode` is compared. -/
def voxSpecBytes (g : Grid (List Nat)) : List Nat :=
  [86, 79, 88, 32] ++ le32 150 ++
  [77, 65, 73, 78] ++ le32 0 ++ le32 (36 + 12 + (4 + 4 * voxelN g) + 1024) ++
  [83, 73, 90, 69] ++ le32 12 ++ le32 0 ++
  le32 g.width ++ le32 g.depth ++ le32 g.height ++
  [88, 89, 90, 73] ++ le32 (4 + 4 * voxelN g) ++ le32 0 ++ le32 (voxelN g) ++
  (specRecords g).join ++
  [82, 71, 66, 65] ++ le32 1024 ++ le32 0 ++
  (specPalette g).join

/-- The association list holding `l` with consecutive indices starting
at `j`; `assocFrom 1 (firstSeen colors)` is the invariant shape of the
encoder's color map. -/
def assocFrom (j : Nat) : List (List Nat) → List (List Nat × Nat)
  | [] => []
  | c :: cs => (c, j) :: assocFrom (j + 1) cs

/-- The loop state after processing cells whose colors are `colors`,
with emitted records `xyzis` (the loop invariant shape). -/
def stateOf (colors : List (List Nat)) (xyzis : List (List Nat)) : VoxLoopState :=
  { colorIndices := assocFrom 1 (firstSeen colors),
    index := ((firstSeen colors).length + 1) % 256,
    xyzis := xyzis }

/-- The counterexample grid for claims C5: 256 cells in a 256 x 1 x 1
grid, each an opaque distinct color. -/
def grid256 : Grid (List Nat) :=
  { width := 256, depth := 1, height := 1,
    data := (List.range 256).map (fun x => [x, 0, 0, 255, 0, 0, 0, 0]) }

/-- The counterexample grid for claim C6: a 16 x 16 x 1 grid with 256
distinct opaque colors. -/
def grid256b : Grid (List Nat) :=
  { width := 16, depth := 16, height := 1,
    data := (List.range 256).map (fun n => [n % 16, n / 16, 0, 255, 0, 0, 0, 0]) }

/-- Witness grid for C5: a single opaque red voxel. -/
def grid111 : Grid (List Nat) :=
  { width := 1, depth := 1, height := 1, data := [[255, 0, 0, 255, 0, 0, 0, 0]] }

/-- Witness grid for C6: a 2 x 2 x 2 grid filled with a zero-alpha
color. -/
def gridZeroAlpha : Grid (List Nat) :=
  { width := 2, depth := 2, height := 2,
    data := List.replicate 8 [0, 0, 255, 0, 0, 0, 0, 0] }

end SolGrid

namespace SolGrid

/-- Claim C1: for every `Grid<T>` that constructs successfully, the
cell-to-offset mapping is claimed injective over in-bounds coordinates and
overflow-safe.  The code computes the unsized index in `u32` arithmetic,
which wraps: for `Grid::<u32>::new(65536, 65536, 2)` (which constructs
successfully on the 64-bit target, `len = 2^35` bytes) the distinct
in-bounds coordinates `(0,0,0)` and `(0,0,1)` map to the same byte range
`0..4`.  This refutes the claim on the code. -/
theorem c1_offset_not_injective_on_large_grid :
    gridLen 4 65536 65536 2 = some 34359738368 ∧
    (0 < 65536 ∧ 0 < 65536 ∧ (1 : Nat) < 2) ∧
    indicesUnchecked 4 65536 65536 0 0 0 = indicesUnchecked 4 65536 65536 0 0 1 ∧
    ((0, 0, 0) : Nat × Nat × Nat) ≠ (0, 0, 1) := by
  refine ⟨by decide, by decide, by decide, by decide⟩

/-- Claim C10: `Voxel::from_rgba(s)` succeeds exactly when `s` has length
4 (the 8-byte width assertion of `from_slice` holds exactly then), and on
success the resulting voxel's bytes are the 4 input bytes followed by 4
zero bytes. -/
theorem c10_from_rgba_length_and_bytes (s : List Nat) :
    (s.length = 4 → Voxel.from_rgba s = some (s ++ [0, 0, 0, 0])) ∧
    (s.length ≠ 4 → Voxel.from_rgba s = none) := by
  constructor
  · intro h
    simp [Voxel.from_rgba, Voxel.from_slice, voxelSIZE, h]
  · intro h
    simp [Voxel.from_rgba, Voxel.from_slice, voxelSIZE]
    omega

/-- Witness for C10 at the concrete input `[255, 0, 0, 255]`. -/
theorem c10_witness :
    Voxel.from_rgba [255, 0, 0, 255] = some [255, 0, 0, 255, 0, 0, 0, 0] :=
  (c10_from_rgba_length_and_bytes [255, 0, 0, 255]).1 (by decide)

/-- Claim C2: for a cubic grid of extent `E` and every rotation, the
destination coordinate computed by `rotated_z` for an in-bounds source
cell lies within `[0, E)` on all three axes, so the out-of-bounds panic
in the destination `get_mut` is unreachable. -/
theorem c2_rotated_dest_in_bounds (E gx gy gz : Nat) (rot : Rotation)
    (hx : gx < E) (hy : gy < E) (hz : gz < E) :
    0 ≤ (rotDest rot E E E gx gy gz).1 ∧ (rotDest rot E E E gx gy gz).1 < (E : Int) ∧
    0 ≤ (rotDest rot E E E gx gy gz).2.1 ∧ (rotDest rot E E E gx gy gz).2.1 < (E : Int) ∧
    0 ≤ (rotDest rot E E E gx gy gz).2.2 ∧ (rotDest rot E E E gx gy gz).2.2 < (E : Int) := by
  cases rot <;>
    simp only [rotDest, rotMatrix, xEvenCorrection, yEvenCorrection] <;>
    split_ifs <;> push_cast <;> omega

/-- Witness for C2: extent 4, rotation 90 degrees, source cell (1, 2, 3). -/
theorem c2_witness :
    (1 < 4 ∧ 2 < 4 ∧ 3 < 4) ∧
    (0 ≤ (rotDest Rotation.R90 4 4 4 1 2 3).1 ∧
      (rotDest Rotation.R90 4 4 4 1 2 3).1 < (4 : Int) ∧
      0 ≤ (rotDest Rotation.R90 4 4 4 1 2 3).2.1 ∧
      (rotDest Rotation.R90 4 4 4 1 2 3).2.1 < (4 : Int) ∧
      0 ≤ (rotDest Rotation.R90 4 4 4 1 2 3).2.2 ∧
      (rotDest Rotation.R90 4 4 4 1 2 3).2.2 < (4 : Int)) :=
  ⟨by decide, c2_rotated_dest_in_bounds 4 1 2 3 Rotation.R90
    (by decide) (by decide) (by decide)⟩

/-- Claim C3: the parity correction of `rotated_z` is exactly: the x-axis
correction is 1 iff the width is even for the 90/180 degree rotations,
and 1 iff depth exceeds width for the 0/270 degree rotations; the y-axis
correction is 1 iff the depth is even for the 180/270 degree rotations,
and 0 for the 0/90 degree rotations. -/
theorem c3_parity_correction_exact (rot : Rotation) (width depth : Nat) :
    ((rot = Rotation.R90 ∨ rot = Rotation.R180) →
      (xEvenCorrection rot width depth = 1 ↔ width % 2 = 0)) ∧
    ((rot = Rotation.R0 ∨ rot = Rotation.R270) →
      (xEvenCorrection rot width depth = 1 ↔ width < depth)) ∧
    ((rot = Rotation.R180 ∨ rot = Rotation.R270) →
      (yEvenCorrection rot depth = 1 ↔ depth % 2 = 0)) ∧
    ((rot = Rotation.R0 ∨ rot = Rotation.R90) →
      yEvenCorrection rot depth = 0) := by
  cases rot <;>
    refine ⟨fun h => ?_, fun h => ?_, fun h => ?_, fun h => ?_⟩ <;>
    first
      | (exfalso; revert h; decide)
      | (simp only [xEvenCorrection, yEvenCorrection] <;> split_ifs <;>
          simp_all <;> omega)

/-- Witness for C3 at rotation 90 degrees, width 4, depth 4. -/
theorem c3_witness :
    xEvenCorrection Rotation.R90 4 4 = 1 ↔ (4 : Nat) % 2 = 0 :=
  (c3_parity_correction_exact Rotation.R90 4 4).1 (Or.inl rfl)

theorem succ_mod_div_of_lt (n w : Nat) (hw : 0 < w) (h : n % w + 1 < w) :
    (n + 1) % w = n % w + 1 ∧ (n + 1) / w = n / w := by
  have hd := Nat.div_add_mod n w
  constructor
  · have : n + 1 = (n % w + 1) + w * (n / w) := by omega
    rw [this, Nat.add_mul_mod_self_left, Nat.mod_eq_of_lt h]
  · have : n + 1 = (n % w + 1) + w * (n / w) := by omega
    rw [this, Nat.add_mul_div_left _ _ hw, Nat.div_eq_of_lt h, Nat.zero_add]

theorem succ_mod_div_of_eq (n w : Nat) (hw : 0 < w) (h : n % w + 1 = w) :
    (n + 1) % w = 0 ∧ (n + 1) / w = n / w + 1 := by
  have hd := Nat.div_add_mod n w
  have hmul : w * (n / w + 1) = w * (n / w) + w := by ring
  constructor
  · have h1 : n + 1 = w * (n / w + 1) := by omega
    rw [h1, Nat.mul_mod_right]
  · have h1 : n + 1 = 0 + w * (n / w + 1) := by omega
    rw [h1, Nat.add_mul_div_left _ _ hw, Nat.zero_div, Nat.zero_add]

theorem ecState_succ (width depth n : Nat) :
    ecState width depth (n + 1) =
      ((ecYield width depth n).1 + 1, (ecYield width depth n).2.1,
        (ecYield width depth n).2.2) := by
  show (ecStep width depth (ecState width depth n)).2 = _
  unfold ecYield ecStep
  split_ifs <;> rfl

/-- Closed form for the enumerator's yielded coordinates: the `n`-th
`next` call yields `(n % w, n / w % d, n / w / d)` - x fastest, then y,
then z. -/
theorem ecYield_closed (width depth : Nat) (hw : 0 < width) (hd : 0 < depth) :
    ∀ n, ecYield width depth n = (n % width, n / width % depth, n / width / depth) := by
  intro n
  induction n with
  | zero =>
    simp only [ecYield, ecState, ecStep]
    rw [if_neg (by omega), if_neg (by omega)]
    simp [Nat.zero_mod, Nat.zero_div]
  | succ n ih =>
    have hstate : ecState width depth (n + 1) =
        (n % width + 1, n / width % depth, n / width / depth) := by
      rw [ecState_succ, ih]
    have hmx : n % width < width := Nat.mod_lt _ hw
    have hmy : n / width % depth < depth := Nat.mod_lt _ hd
    by_cases hx : n % width + 1 < width
    · obtain ⟨hm, hdiv⟩ := succ_mod_div_of_lt n width hw hx
      simp only [ecYield, hstate, ecStep]
      rw [if_neg (by omega), if_neg (by omega)]
      rw [hm, hdiv]
    · have hx' : n % width + 1 = width := by omega
      obtain ⟨hm, hdiv⟩ := succ_mod_div_of_eq n width hw hx'
      by_cases hy : n / width % depth + 1 < depth
      · obtain ⟨hm2, hdiv2⟩ := succ_mod_div_of_lt (n / width) depth hd hy
        simp only [ecYield, hstate, ecStep]
        rw [if_pos (by omega), if_neg (by omega)]
        rw [hm, hdiv, hm2, hdiv2]
      · have hy' : n / width % depth + 1 = depth := by omega
        obtain ⟨hm2, hdiv2⟩ := succ_mod_div_of_eq (n / width) depth hd hy'
        simp only [ecYield, hstate, ecStep]
        rw [if_pos (by omega), if_pos (by omega)]
        rw [hm, hdiv, hm2, hdiv2]

/-- Claim C7: the `n`-th yielded coordinate triple is claimed to be
exactly the coordinate at which `get`/`get_mut` address the `n`-th
buffer chunk.  The enumerator does yield
`(n % width, n / width % depth, n / (width * depth))`, but `get`
computes its chunk index in wrapping `u32` arithmetic: on the
constructible grid `Grid::<u32>::new(65536, 65536, 2)` the enumerator
yields coordinate `(0, 0, 1)` for chunk `n = 2^32`, while `get(0, 0, 1)`
addresses chunk `(0 + 0*65536 + 1*65536*65536) mod 2^32 = 0`, a
different chunk.  This refutes the claim on the code. -/
theorem c7_enum_coord_get_mismatch :
    ecYield 65536 65536 4294967296 = (0, 0, 1) ∧
    unsizedIndex 65536 65536 0 0 1 = 0 ∧
    (0 : Nat) ≠ 4294967296 := by
  refine ⟨?_, by decide, by decide⟩
  exact (ecYield_closed 65536 65536 (by decide) (by decide) 4294967296).trans
    (by decide)

/-- Claim C8: writing through `get_mut(x, y, z)` and then reading through
`get(x, y, z)` at the same in-bounds coordinate returns exactly the
written value.  This holds for every grid whose buffer has the
constructed length, including grids large enough to trigger the `u32`
index wrap, because `get` and `get_mut` compute the same (possibly
wrapped) index, which always falls inside the buffer. -/
theorem c8_write_then_read (T : Type) (g : Grid T) (x y z : Nat) (t : T)
    (hlen : g.data.length = g.width * g.depth * g.height)
    (hx : x < g.width) (hy : y < g.depth) (hz : z < g.height) :
    ∃ g' : Grid T, g.setCell x y z t = some g' ∧ g'.get x y z = some t := by
  have hb : x < g.width ∧ y < g.depth ∧ z < g.height := ⟨hx, hy, hz⟩
  have hraw : x + y * g.width + z * g.width * g.depth <
      g.width * g.depth * g.height := by
    have e1 : (y + 1) * g.width ≤ g.depth * g.width :=
      Nat.mul_le_mul hy (Nat.le_refl _)
    have e2 : (y + 1) * g.width = y * g.width + g.width := by ring
    have h2 : g.width * g.depth * (z + 1) ≤ g.width * g.depth * g.height :=
      Nat.mul_le_mul (Nat.le_refl _) hz
    have e3 : g.width * g.depth * (z + 1) = g.width * g.depth * z + g.width * g.depth := by
      ring
    have e4 : z * g.width * g.depth = g.width * g.depth * z := by ring
    have e5 : g.depth * g.width = g.width * g.depth := by ring
    omega
  have hidx : unsizedIndex g.width g.depth x y z <
      g.width * g.depth * g.height := by
    have := Nat.mod_le (x + y * g.width + z * g.width * g.depth) M32
    unfold unsizedIndex
    omega
  refine ⟨_, by rw [Grid.setCell, if_pos hb], ?_⟩
  rw [Grid.get, if_pos hb]
  simp only
  rw [List.get?_eq_getElem?, List.getElem?_set_self]
  rw [hlen]
  exact hidx

theorem unsizedIndex_lt_M32 (width depth x y z : Nat) :
    unsizedIndex width depth x y z < M32 :=
  Nat.mod_lt _ (by decide)

theorem setCell_some_data (g : Grid T) (x y z : Nat) (t : T) (g' : Grid T)
    (h : g.setCell x y z t = some g') :
    g'.data = g.data.set (unsizedIndex g.width g.depth x y z) t := by
  unfold Grid.setCell at h
  split at h
  · cases h; rfl
  · cases h

/-- Every write performed by the `rotated_z` loop lands at a `u32` chunk
index, i.e. strictly below 2^32; so any buffer position at or above 2^32
keeps the value it had in the freshly allocated output grid. -/
theorem foldlM_rotWrite_get_high (rot : Rotation) (width depth height K : Nat)
    (hK : M32 ≤ K) (l : List ((Nat × Nat × Nat) × T)) :
    ∀ (g0 g1 : Grid T),
      List.foldlM (rotWrite rot width depth height) g0 l = some g1 →
      g1.data.get? K = g0.data.get? K := by
  induction l with
  | nil =>
    intro g0 g1 h
    simp only [List.foldlM_nil] at h
    cases h; rfl
  | cons c l ih =>
    intro g0 g1 h
    rw [List.foldlM_cons] at h
    cases hw : rotWrite rot width depth height g0 c with
    | none => rw [hw] at h; cases h
    | some g' =>
      rw [hw] at h
      simp only [Option.bind_eq_bind, Option.some_bind] at h
      rw [ih g' g1 h]
      have hdata := setCell_some_data _ _ _ _ _ _ hw
      rw [hdata, List.get?_eq_getElem?, List.get?_eq_getElem?,
        List.getElem?_set_ne]
      exact Nat.ne_of_lt (Nat.lt_of_lt_of_le (unsizedIndex_lt_M32 _ _ _ _ _) hK)

/-- Claim C4: rotating a cubic grid by 0 degrees is claimed to reproduce
the grid cell for cell (and four 90-degree rotations likewise).  On the
constructible 2048-cube `bigCube` this fails: the loop write for source
cell (0, 0, 1024) (linear index 2^32) wraps to chunk index 0 in the `u32`
index arithmetic of `get_mut`, and chunk 2^32 of the output is never
written, so the cell holding 5 comes back 0.  This refutes the claim
(its 0-degree conjunct) on the code. -/
theorem c4_rotated_z_zero_not_identity :
    Grid.rotated_z 0 bigCube Rotation.R0 ≠ some bigCube := by
  intro h
  unfold Grid.rotated_z at h
  rw [if_pos ⟨rfl, rfl⟩] at h
  have hpres := foldlM_rotWrite_get_high Rotation.R0 2048 2048 2048 4294967296
    (Nat.le_refl _) bigCube.enumCellsList _ _ h
  have hsrc : bigCube.data.get? 4294967296 = some 5 := by
    show bigCubeData.get? 4294967296 = some 5
    unfold bigCubeData
    rw [List.get?_append_right (by rw [List.length_replicate]),
      List.length_replicate, Nat.sub_self]
    rfl
  have hnew :
      (Grid.mkNew 0 bigCube.width bigCube.depth bigCube.height).data.get?
        4294967296 = some 0 := by
    show (List.replicate (2048 * 2048 * 2048) 0).get? 4294967296 = some 0
    rw [List.get?_eq_getElem?, List.getElem?_replicate, if_pos (by decide)]
  rw [hsrc, hnew] at hpres
  cases hpres

/-- Claim C9 counterexample: with `height = 0` and oversized
`width * depth`, the full byte size `SIZE * w * d * h = 0` is perfectly
representable in `usize`, yet `Grid::<Voxel>::new(4294967295, 4294967295, 0)`
panics, because the checked products are computed left-to-right and
`8 * 4294967295 * 4294967295` already overflows.  So construction does
not fail *exactly* when the full product is unrepresentable. -/
theorem c9_counterexample_height_zero :
    8 * 4294967295 * 4294967295 * 0 ≤ USIZE_MAX ∧
    gridNewBytes 8 4294967295 4294967295 0 = none := by
  constructor
  · decide
  · decide

/-- Claim C9 as amended: `Grid::new` fails exactly when one of the
left-to-right prefix products `SIZE*w`, `SIZE*w*d`, `SIZE*w*d*h` exceeds
`usize::MAX`; otherwise it returns a zero-filled buffer of exactly
`SIZE*w*d*h` bytes. -/
theorem c9_new_checked_amended (size width depth height : Nat) :
    (gridNewBytes size width depth height = none ↔
      (USIZE_MAX < size * width ∨ USIZE_MAX < size * width * depth ∨
        USIZE_MAX < size * width * depth * height)) ∧
    (∀ l, gridNewBytes size width depth height = some l →
      l = List.replicate (size * width * depth * height) 0) := by
  unfold gridNewBytes gridLen checkedMul
  simp only [Option.some_bind]
  by_cases h1 : size * width ≤ USIZE_MAX
  · rw [if_pos h1]
    simp only [Option.some_bind]
    by_cases h2 : size * width * depth ≤ USIZE_MAX
    · rw [if_pos h2]
      simp only [Option.some_bind]
      by_cases h3 : size * width * depth * height ≤ USIZE_MAX
      · rw [if_pos h3]
        constructor
        · simp only [Option.map_some']
          constructor
          · intro h; cases h
          · intro h; omega
        · intro l hl
          simp only [Option.map_some'] at hl
          cases hl; rfl
      · rw [if_neg h3]
        constructor
        · simp only [Option.map_none']
          constructor
          · intro _; omega
          · intro _; trivial
        · intro l hl; cases hl
    · rw [if_neg h2, Option.none_bind]
      constructor
      · simp only [Option.map_none']
        constructor
        · intro _; omega
        · intro _; trivial
      · intro l hl; cases hl
  · rw [if_neg h1]
    rw [Option.none_bind, Option.none_bind]
    constructor
    · simp only [Option.map_none']
      constructor
      · intro _; omega
      · intro _; trivial
    · intro l hl; cases hl

/-- Witness for C9 (amended): a 1 x 1 x 1 `Voxel` grid constructs with an
8-byte zero-filled buffer. -/
theorem c9_witness :
    gridNewBytes 8 1 1 1 = some (List.replicate 8 0) ∧
    List.replicate 8 0 = List.replicate (8 * 1 * 1 * 1) 0 :=
  ⟨by decide, (c9_new_checked_amended 8 1 1 1).2 (List.replicate 8 0) (by decide)⟩

/-- Witness for C8: a 2 x 2 x 2 grid of `Nat` cells, writing 7 at
coordinate (1, 0, 1). -/
theorem c8_witness :
    ∃ g' : Grid Nat,
      (Grid.mkNew 0 2 2 2).setCell 1 0 1 7 = some g' ∧ g'.get 1 0 1 = some 7 :=
  c8_write_then_read Nat (Grid.mkNew 0 2 2 2) 1 0 1 7 (by decide)
    (by decide) (by decide) (by decide)

theorem lookupColor_assocFrom (c : List Nat) :
    ∀ (fs : List (List Nat)) (j : Nat),
      lookupColor (assocFrom j fs) c =
        if c ∈ fs then some (posOf c fs + j) else none := by
  intro fs
  induction fs with
  | nil => intro j; simp [assocFrom, lookupColor]
  | cons a rest ih =>
    intro j
    simp only [assocFrom, lookupColor]
    by_cases hac : a = c
    · subst hac
      rw [if_pos rfl, if_pos (List.mem_cons_self _ _)]
      simp [posOf]
    · rw [if_neg hac, ih (j + 1)]
      by_cases hmem : c ∈ rest
      · rw [if_pos hmem, if_pos (List.mem_cons_of_mem _ hmem)]
        simp only [posOf, if_neg hac, Option.some.injEq]
        omega
      · have hnc : c ∉ a :: rest := by
          simp only [List.mem_cons]
          rintro (hca | h2)
          · exact hac hca.symm
          · exact hmem h2
        rw [if_neg hmem, if_neg hnc]

theorem firstSeen_snoc (A : List (List Nat)) (c : List Nat) :
    firstSeen (A ++ [c]) =
      if c ∈ firstSeen A then firstSeen A else firstSeen A ++ [c] := by
  unfold firstSeen
  rw [List.foldl_append]
  simp only [List.foldl_cons, List.foldl_nil]

theorem foldl_firstSeen_extends (B : List (List Nat)) :
    ∀ acc : List (List Nat),
      ∃ t, B.foldl (fun acc c => if c ∈ acc then acc else acc ++ [c]) acc =
        acc ++ t := by
  induction B with
  | nil => intro acc; exact ⟨[], by simp⟩
  | cons b B ih =>
    intro acc
    rw [List.foldl_cons]
    by_cases hb : b ∈ acc
    · rw [if_pos hb]; exact ih acc
    · rw [if_neg hb]
      obtain ⟨t, ht⟩ := ih (acc ++ [b])
      exact ⟨[b] ++ t, by rw [ht, List.append_assoc]⟩

theorem firstSeen_extends (A B : List (List Nat)) :
    ∃ t, firstSeen (A ++ B) = firstSeen A ++ t := by
  unfold firstSeen
  rw [List.foldl_append]
  exact foldl_firstSeen_extends B _

theorem posOf_append_of_mem (c : List Nat) :
    ∀ (l1 l2 : List (List Nat)), c ∈ l1 → posOf c (l1 ++ l2) = posOf c l1 := by
  intro l1
  induction l1 with
  | nil => intro l2 h; cases h
  | cons a rest ih =>
    intro l2 h
    show posOf c (a :: (rest ++ l2)) = posOf c (a :: rest)
    simp only [posOf]
    by_cases hac : a = c
    · rw [if_pos hac, if_pos hac]
    · rw [if_neg hac, if_neg hac,
        ih l2 ((List.mem_cons.mp h).resolve_left (fun hc => hac hc.symm))]

theorem posOf_append_of_not_mem (c : List Nat) :
    ∀ (l1 l2 : List (List Nat)), c ∉ l1 →
      posOf c (l1 ++ l2) = l1.length + posOf c l2 := by
  intro l1
  induction l1 with
  | nil => intro l2 _; simp [posOf]
  | cons a rest ih =>
    intro l2 h
    have hac : ¬a = c := fun hc => h (by rw [hc]; exact List.mem_cons_self _ _)
    have hrest : c ∉ rest := fun hc => h (List.mem_cons_of_mem _ hc)
    show posOf c (a :: (rest ++ l2)) = (a :: rest).length + posOf c l2
    simp only [posOf, if_neg hac, List.length_cons]
    rw [ih l2 hrest]
    omega

theorem assocFrom_snoc (c : List Nat) :
    ∀ (l : List (List Nat)) (j : Nat),
      assocFrom j (l ++ [c]) = assocFrom j l ++ [(c, j + l.length)] := by
  intro l
  induction l with
  | nil => intro j; simp [assocFrom]
  | cons a rest ih =>
    intro j
    show (a, j) :: assocFrom (j + 1) (rest ++ [c]) =
      (a, j) :: (assocFrom (j + 1) rest ++ [(c, j + (rest.length + 1))])
    rw [ih (j + 1)]
    have he : j + 1 + rest.length = j + (rest.length + 1) := by omega
    rw [he]

theorem mem_foldl_firstSeen (B : List (List Nat)) :
    ∀ (acc : List (List Nat)) (c : List Nat), c ∈ acc ∨ c ∈ B →
      c ∈ B.foldl (fun acc c => if c ∈ acc then acc else acc ++ [c]) acc := by
  induction B with
  | nil => intro acc c h; simpa using h.resolve_right (by simp)
  | cons b B ih =>
    intro acc c h
    rw [List.foldl_cons]
    by_cases hb : b ∈ acc
    · rw [if_pos hb]
      apply ih acc c
      rcases h with h | h
      · exact Or.inl h
      · rcases List.mem_cons.mp h with rfl | h
        · exact Or.inl hb
        · exact Or.inr h
    · rw [if_neg hb]
      refine ih (acc ++ [b]) c ?_
      rcases h with h | h
      · exact Or.inl (List.mem_append_left _ h)
      · rcases List.mem_cons.mp h with rfl | h
        · exact Or.inl (List.mem_append_right _ (List.mem_singleton.mpr rfl))
        · exact Or.inr h

theorem mem_firstSeen (c : List Nat) (A : List (List Nat)) (h : c ∈ A) :
    c ∈ firstSeen A := by
  unfold firstSeen
  exact mem_foldl_firstSeen A [] c (Or.inr h)

theorem assocFrom_value_ge (q : List Nat × Nat) :
    ∀ (fs : List (List Nat)) (j : Nat), q ∈ assocFrom j fs → j ≤ q.2 := by
  intro fs
  induction fs with
  | nil => intro j h; cases h
  | cons a rest ih =>
    intro j h
    rcases List.mem_cons.mp h with rfl | h
    · exact Nat.le_refl _
    · exact Nat.le_of_succ_le (ih (j + 1) h)

theorem assocFrom_no_zero (fs : List (List Nat)) :
    ((assocFrom 1 fs).any (fun p => p.2 = 0)) = false := by
  rw [List.any_eq_false]
  intro p hp
  have h1 := assocFrom_value_ge p fs 1 hp
  simp only [decide_eq_true_eq]
  omega

theorem voxCellStep_of_mem (prev xy0 : List (List Nat))
    (c : (Nat × Nat × Nat) × List Nat) (hmem : asRgba c.2 ∈ firstSeen prev) :
    voxCellStep (stateOf prev xy0) c =
      stateOf prev (xy0 ++
        (if 0 < (asRgba c.2).getD 3 0 then
          [[c.1.1 % 256, c.1.2.1 % 256, c.1.2.2 % 256,
            posOf (asRgba c.2) (firstSeen prev) + 1]]
         else [])) := by
  unfold voxCellStep stateOf
  simp only [lookupColor_assocFrom, if_pos hmem]
  split_ifs <;> simp

theorem voxCellStep_of_not_mem (prev xy0 : List (List Nat))
    (c : (Nat × Nat × Nat) × List Nat) (hmem : asRgba c.2 ∉ firstSeen prev)
    (hlen : (firstSeen prev).length ≤ 254) :
    voxCellStep (stateOf prev xy0) c =
      stateOf (prev ++ [asRgba c.2]) (xy0 ++
        (if 0 < (asRgba c.2).getD 3 0 then
          [[c.1.1 % 256, c.1.2.1 % 256, c.1.2.2 % 256,
            (firstSeen prev).length + 1]]
         else [])) := by
  have hidx : ((firstSeen prev).length + 1) % 256 = (firstSeen prev).length + 1 :=
    Nat.mod_eq_of_lt (by omega)
  have hfs : firstSeen (prev ++ [asRgba c.2]) = firstSeen prev ++ [asRgba c.2] := by
    rw [firstSeen_snoc, if_neg hmem]
  have hcomm : 1 + (firstSeen prev).length = (firstSeen prev).length + 1 := by
    omega
  unfold voxCellStep stateOf
  simp only [lookupColor_assocFrom, if_neg hmem]
  rw [hfs, assocFrom_snoc, hidx, hcomm]
  simp only [List.length_append, List.length_cons, List.length_nil]
  split_ifs <;> simp

theorem recordsOf_cons (c : (Nat × Nat × Nat) × List Nat)
    (cs : List ((Nat × Nat × Nat) × List Nat)) (reg : List (List Nat)) :
    recordsOf (c :: cs) reg =
      (if 0 < (asRgba c.2).getD 3 0 then
        [[c.1.1 % 256, c.1.2.1 % 256, c.1.2.2 % 256,
          posOf (asRgba c.2) reg + 1]]
       else []) ++ recordsOf cs reg := by
  by_cases h : 0 < (asRgba c.2).getD 3 0
  · rw [if_pos h]
    unfold recordsOf
    rw [List.filter_cons, if_pos (by simpa using h), List.map_cons]
    rfl
  · rw [if_neg h]
    unfold recordsOf
    rw [List.filter_cons, if_neg (by simpa using h)]
    rfl

theorem voxLoop_invariant (cells : List ((Nat × Nat × Nat) × List Nat)) :
    ∀ (prev xy0 : List (List Nat)),
      (firstSeen (prev ++ cells.map (fun x => asRgba x.2))).length ≤ 255 →
      cells.foldl voxCellStep (stateOf prev xy0) =
        stateOf (prev ++ cells.map (fun x => asRgba x.2))
          (xy0 ++ recordsOf cells
            (firstSeen (prev ++ cells.map (fun x => asRgba x.2)))) := by
  induction cells with
  | nil =>
    intro prev xy0 _
    simp [recordsOf, List.foldl_nil]
  | cons c cs ih =>
    intro prev xy0 hbound
    have hmapeq : prev ++ (c :: cs).map (fun x => asRgba x.2) =
        (prev ++ [asRgba c.2]) ++ cs.map (fun x => asRgba x.2) := by
      simp [List.append_assoc]
    rw [List.foldl_cons]
    by_cases hmem : asRgba c.2 ∈ firstSeen prev
    · have hfs1 : firstSeen (prev ++ [asRgba c.2]) = firstSeen prev := by
        rw [firstSeen_snoc, if_pos hmem]
      have hstate : ∀ xs, stateOf prev xs = stateOf (prev ++ [asRgba c.2]) xs := by
        intro xs; unfold stateOf; rw [hfs1]
      rw [voxCellStep_of_mem prev xy0 c hmem, hstate,
        ih (prev ++ [asRgba c.2]) _ (by rw [← hmapeq]; exact hbound), ← hmapeq]
      obtain ⟨t, ht⟩ := firstSeen_extends (prev ++ [asRgba c.2])
        (cs.map (fun x => asRgba x.2))
      have hFS : firstSeen (prev ++ (c :: cs).map (fun x => asRgba x.2)) =
          firstSeen prev ++ t := by
        rw [hmapeq, ht, hfs1]
      congr 1
      rw [List.append_assoc, recordsOf_cons]
      congr 1
      rw [hFS, posOf_append_of_mem _ _ _ hmem]
    · have h1 : firstSeen (prev ++ [asRgba c.2]) =
          firstSeen prev ++ [asRgba c.2] := by
        rw [firstSeen_snoc, if_neg hmem]
      obtain ⟨t, ht⟩ := firstSeen_extends (prev ++ [asRgba c.2])
        (cs.map (fun x => asRgba x.2))
      have hbound2 : (firstSeen ((prev ++ [asRgba c.2]) ++
          cs.map (fun x => asRgba x.2))).length ≤ 255 := by
        rw [← hmapeq]; exact hbound
      have hlen : (firstSeen prev).length ≤ 254 := by
        have h2 := hbound2
        rw [ht, h1] at h2
        simp only [List.length_append, List.length_cons, List.length_nil] at h2
        omega
      rw [voxCellStep_of_not_mem prev xy0 c hmem hlen,
        ih (prev ++ [asRgba c.2]) _ hbound2, ← hmapeq]
      have hFS : firstSeen (prev ++ (c :: cs).map (fun x => asRgba x.2)) =
          (firstSeen prev ++ [asRgba c.2]) ++ t := by
        rw [hmapeq, ht, h1]
      have hpos : posOf (asRgba c.2) ((firstSeen prev ++ [asRgba c.2]) ++ t) =
          (firstSeen prev).length := by
        rw [List.append_assoc, posOf_append_of_not_mem _ _ _ hmem]
        show (firstSeen prev).length + posOf (asRgba c.2)
          (asRgba c.2 :: ([] ++ t)) = (firstSeen prev).length
        simp [posOf]
      congr 1
      rw [List.append_assoc, recordsOf_cons]
      congr 1
      rw [hFS, hpos]

theorem specRecords_length (g : Grid (List Nat)) :
    (specRecords g).length = voxelN g := by
  unfold specRecords recordsOf voxelN opaqueCells
  rw [List.length_map]

theorem foldl_set_palette_get? (fs : List (List Nat)) :
    ∀ (j : Nat) (pal : List (List Nat)) (m : Nat),
      j + fs.length ≤ pal.length →
      (List.foldl (fun pal p => pal.set (p.2 - 1) p.1) pal
        (assocFrom (j + 1) fs)).get? m =
        if j ≤ m ∧ m < j + fs.length then fs.get? (m - j) else pal.get? m := by
  induction fs with
  | nil =>
    intro j pal m _
    rw [if_neg (by simp only [List.length_nil]; omega)]
    rfl
  | cons a rest ih =>
    intro j pal m hlen
    have hj : j < pal.length := by
      simp only [List.length_cons] at hlen
      omega
    have hlen2 : j + 1 + rest.length ≤ (pal.set j a).length := by
      rw [List.length_set]
      simp only [List.length_cons] at hlen
      omega
    show (List.foldl (fun pal p => pal.set (p.2 - 1) p.1) (pal.set j a)
      (assocFrom (j + 1 + 1) rest)).get? m =
      if j ≤ m ∧ m < j + (a :: rest).length then (a :: rest).get? (m - j)
      else pal.get? m
    rw [ih (j + 1) (pal.set j a) m hlen2]
    by_cases h1 : j + 1 ≤ m ∧ m < j + 1 + rest.length
    · rw [if_pos h1, if_pos (by simp only [List.length_cons]; omega)]
      have hm : m - j = (m - (j + 1)) + 1 := by omega
      rw [hm]
      rfl
    · rw [if_neg h1]
      by_cases h2 : m = j
      · subst h2
        rw [if_pos (by simp only [List.length_cons]; omega), Nat.sub_self,
          List.get?_eq_getElem?, List.getElem?_set_self hj]
        rfl
      · have hcond : ¬(j ≤ m ∧ m < j + (a :: rest).length) := by
          simp only [List.length_cons]
          omega
        rw [if_neg hcond, List.get?_eq_getElem?, List.get?_eq_getElem?,
          List.getElem?_set_ne (by omega : j ≠ m)]

theorem buildPalette_eq (fs : List (List Nat)) (hlen : fs.length ≤ 255) :
    buildPalette (assocFrom 1 fs) =
      (List.range 256).map (fun i => fs.getD i [0, 0, 0, 0]) := by
  apply List.ext_get?
  intro m
  unfold buildPalette
  have h := foldl_set_palette_get? fs 0 (List.replicate 256 [0, 0, 0, 0]) m
    (by rw [List.length_replicate]; omega)
  rw [show assocFrom 1 fs = assocFrom (0 + 1) fs from rfl, h]
  simp only [List.get?_eq_getElem?]
  rw [List.getElem?_map]
  by_cases h1 : m < fs.length
  · rw [if_pos (by omega), List.getElem?_range (by omega : m < 256),
      Nat.sub_zero, Option.map_some', List.getD_eq_getElem?_getD]
    cases hfm : fs[m]? with
    | none =>
      have := List.getElem?_eq_none_iff.mp hfm
      omega
    | some v => rfl
  · by_cases h2 : m < 256
    · rw [if_neg (by omega), List.getElem?_range h2, Option.map_some',
        List.getElem?_replicate, if_pos h2,
        List.getD_eq_getElem?_getD, List.getElem?_eq_none (by omega)]
      rfl
    · rw [if_neg (by omega), List.getElem?_replicate,
        if_neg h2, List.getElem?_eq_none (by rw [List.length_range]; omega)]
      rfl

theorem voxLoop_eq (g : Grid (List Nat))
    (hdist : (firstSeen (gridColors g)).length ≤ 255) :
    voxLoop g.enumCellsList = stateOf (gridColors g) (specRecords g) := by
  have h := voxLoop_invariant g.enumCellsList [] [] hdist
  unfold voxLoop
  have hinit : ({ colorIndices := [], index := 1, xyzis := [] } : VoxLoopState) =
      stateOf [] [] := rfl
  rw [hinit, h]
  rfl

/-- The byte-exactness refinement: under the documented palette limit
(at most 255 distinct colors) and with size fields free of `u32` wrap,
`encode` produces exactly the spec-side layout. -/
theorem encode_eq_voxSpecBytes (g : Grid (List Nat))
    (hdist : (firstSeen (gridColors g)).length ≤ 255)
    (hN : 1076 + 4 * voxelN g < M32) :
    encode g = some (voxSpecBytes g) := by
  have hloop := voxLoop_eq g hdist
  have hN' : voxelN g % M32 = voxelN g := Nat.mod_eq_of_lt (by unfold M32 at hN ⊢; omega)
  have h2 : (4 + voxelN g * 4) % M32 = 4 + 4 * voxelN g := by
    unfold M32 at hN ⊢; omega
  have h3 : (36 + 12 + (4 + 4 * voxelN g) + 1024) % M32 =
      36 + 12 + (4 + 4 * voxelN g) + 1024 := by
    unfold M32 at hN ⊢; omega
  simp only [encode]
  rw [hloop]
  simp only [stateOf]
  rw [assocFrom_no_zero]
  rw [if_neg Bool.false_ne_true]
  rw [specRecords_length, hN', h2, h3, buildPalette_eq _ hdist]
  unfold voxSpecBytes specPalette
  rfl

/-- Claim C5 counterexample: the claim quantifies over every
`Grid<Voxel>`, but on a 256 x 1 x 1 grid whose 256 cells carry 256
distinct colors, `encode` panics instead of producing the byte-exact
output: the `u8` palette index counter wraps to 0 for the 256th color and
the palette write `palette[0 - 1]` indexes out of bounds. -/
theorem c5_counterexample_256_colors :
    encode grid256 = none ∧ 0 < grid256.cell_count := by
  exact ⟨by decide, by decide⟩

/-- Claim C5 as amended: for every `Grid<Voxel>` with at most 255
distinct cell colors and few enough emitted records that the `u32` size
fields do not wrap (1076 + 4*N < 2^32), the output of `encode` is
byte-exact per the external format: tag, version 150, `MAIN` header with
child size 36 + 12 + (4 + 4*N) + 1024, `SIZE` content (width, depth,
height), `XYZI` content (count N then the N 4-byte records), and `RGBA`
content of exactly 256 four-byte entries where entry `i` holds the color
registered under palette index `i + 1` or zeroes. -/
theorem c5_encode_byte_exact (g : Grid (List Nat))
    (hdist : (firstSeen (gridColors g)).length ≤ 255)
    (hN : 1076 + 4 * voxelN g < M32) :
    encode g = some (voxSpecBytes g) :=
  encode_eq_voxSpecBytes g hdist hN

/-- Witness for C5 (amended) at the 1 x 1 x 1 grid holding one opaque
red voxel. -/
theorem c5_witness :
    ((firstSeen (gridColors grid111)).length ≤ 255 ∧
      1076 + 4 * voxelN grid111 < M32) ∧
    encode grid111 = some (voxSpecBytes grid111) :=
  ⟨⟨by decide, by decide⟩, c5_encode_byte_exact grid111 (by decide) (by decide)⟩

/-- Claim C6 counterexample: on a 16 x 16 x 1 grid with 256 distinct
opaque colors, `encode` panics (the `u8` palette index wraps and the
palette write indexes out of bounds), so no records are emitted at all
even though every cell has non-zero alpha. -/
theorem c6_counterexample_256_colors :
    encode grid256b = none ∧ 0 < voxelN grid256b := by
  exact ⟨by decide, by decide⟩

/-- Claim C6 as amended: for every `Grid<Voxel>` with at most 255
distinct colors (so encoding succeeds) and fewer than 2^32 emitted
records (so the count field does not truncate): the emitted record list
is exactly one 4-byte record per non-zero-alpha cell in enumeration order
and none for alpha-0 cells; the voxel count field value equals that
number; the encoder produces output; and every cell's color - including
zero-alpha colors - is assigned a positive palette index. -/
theorem c6_records_per_opaque_cell (g : Grid (List Nat))
    (hdist : (firstSeen (gridColors g)).length ≤ 255)
    (hN : voxelN g < M32) :
    (voxLoop g.enumCellsList).xyzis = specRecords g ∧
    (voxLoop g.enumCellsList).xyzis.length % M32 = voxelN g ∧
    (encode g).isSome = true ∧
    ∀ c ∈ g.enumCellsList, ∃ i,
      lookupColor (voxLoop g.enumCellsList).colorIndices (asRgba c.2) =
        some i ∧ 0 < i := by
  have hloop := voxLoop_eq g hdist
  refine ⟨?_, ?_, ?_, ?_⟩
  · rw [hloop]; rfl
  · rw [hloop]
    show (specRecords g).length % M32 = voxelN g
    rw [specRecords_length]
    exact Nat.mod_eq_of_lt hN
  · simp only [encode]
    rw [hloop]
    simp only [stateOf]
    rw [assocFrom_no_zero, if_neg Bool.false_ne_true]
    rfl
  · intro c hc
    rw [hloop]
    show ∃ i, lookupColor (assocFrom 1 (firstSeen (gridColors g)))
      (asRgba c.2) = some i ∧ 0 < i
    rw [lookupColor_assocFrom]
    have hmem : asRgba c.2 ∈ firstSeen (gridColors g) :=
      mem_firstSeen _ _ (List.mem_map.mpr ⟨c, hc, rfl⟩)
    rw [if_pos hmem]
    exact ⟨_, rfl, by omega⟩

/-- Witness for C6 (amended) at a 2 x 2 x 2 grid filled with a
zero-alpha color: zero records are emitted, the count field is 0, and
the color still receives palette index 1. -/
theorem c6_witness :
    ((firstSeen (gridColors gridZeroAlpha)).length ≤ 255 ∧
      voxelN gridZeroAlpha < M32) ∧
    ((voxLoop gridZeroAlpha.enumCellsList).xyzis = specRecords gridZeroAlpha ∧
      (voxLoop gridZeroAlpha.enumCellsList).xyzis.length % M32 =
        voxelN gridZeroAlpha ∧
      (encode gridZeroAlpha).isSome = true ∧
      ∀ c ∈ gridZeroAlpha.enumCellsList, ∃ i,
        lookupColor (voxLoop gridZeroAlpha.enumCellsList).colorIndices
          (asRgba c.2) = some i ∧ 0 < i) :=
  ⟨⟨by decide, by decide⟩,
    c6_records_per_opaque_cell gridZeroAlpha (by decide) (by decide)⟩

end SolGrid
